import Mathlib

/-!
Shallow embedding of `src/Freedom_Clock_HeltecVME213.ino` (Freedom Clock,
Heltec Vision Master E213) and proofs about it.

Modelling conventions:
* C `float` arithmetic is idealized as exact rational arithmetic (`ℚ`);
  decimal literals of the source become the corresponding rationals.
* `powf(1.0f + inflationAnnual, 1.0f / 365.0f)` is transcendental, so the
  daily multiplier is passed as an explicit parameter `dailyMul : ℚ`.
  Both the source and the spec compute it by the same formula from the
  (negative-clamped) inflation rate, so `1 ≤ dailyMul` always holds at the
  call site; theorems that need it take it as a hypothesis.
* C `int` results are `ℤ`; the day counter (always nonnegative) is `ℕ`.
* C strings are `List Char` (the bytes before the terminator); a possibly
  null `char*` argument is `Option (List Char)`; fixed 16-byte buffers are
  `List Char` of length 16, with `Char.ofNat 0` playing the role of `'\0'`.
-/

namespace FreedomClock

/-- Function `clampNonNegative` from the source: `(v < 0.0f) ? 0.0f : v`. -/
def clampNonNegative (v : ℚ) : ℚ :=
  if v < 0 then 0 else v

/-- The day-simulation loop body shared by the source's
`computeLongevityWithInflation` and the spec's reference algorithm:
starting from `remaining` wealth and a current `dailyExpense`, it stops when
`remaining < dailyExpense` and otherwise subtracts the expense, multiplies
the expense by `dailyMul`, and counts the day.  `fuel` bounds the number of
days still allowed; the result is the number of days executed. -/
def simLoop (dailyMul : ℚ) : ℕ → ℚ → ℚ → ℕ
  | 0, _, _ => 0
  | fuel + 1, remaining, dailyExpense =>
    if remaining < dailyExpense then 0
    else simLoop dailyMul fuel (remaining - dailyExpense) (dailyExpense * dailyMul) + 1

/-- Constant `MAX_DAYS = 365 * 200` from the source (the 200-year cap). -/
def MAX_DAYS : ℕ := 365 * 200

/-- The source's conversion of elapsed days to (years, months, weeks):
`outYears = days / 365; remDays = days % 365; outMonths = remDays / 30;
remDays = remDays % 30; outWeeks = remDays / 7` (C `int` division on
nonnegative values, hence `ℤ` division). -/
def daysToYMW (days : ℕ) : ℤ × ℤ × ℤ :=
  ((days : ℤ) / 365, ((days : ℤ) % 365) / 30, (((days : ℤ) % 365) % 30) / 7)

/-- Function `computeLongevityWithInflation` from the source, with the daily
multiplier `powf(1+inflation, 1/365)` abstracted as `dailyMul` (see the
header).  Early-returns `(0,0,0)` when `usdWealth ≤ 0` or
`monthlyExpenseToday ≤ 0`; otherwise runs the day loop with fuel
`MAX_DAYS`, starting from `usdWealth` and daily expense
`monthlyExpenseToday / 30`. -/
def computeLongevityWithInflation (usdWealth monthlyExpenseToday dailyMul : ℚ) :
    ℤ × ℤ × ℤ :=
  if usdWealth ≤ 0 ∨ monthlyExpenseToday ≤ 0 then (0, 0, 0)
  else daysToYMW (simLoop dailyMul MAX_DAYS usdWealth (monthlyExpenseToday / 30))

/-- Fuel certainly sufficient for the uncapped day loop when
`1 ≤ dailyMul` and `0 < d`: the loop subtracts at least `d` from the
wealth each day, so it runs fewer than `⌈w / d⌉ + 1` days
(`simLoop_lt_specFuel` below proves this). -/
def specFuel (w d : ℚ) : ℕ := (⌈w / d⌉).toNat + 1

/-- Modelled from the spec: the day count of the UNCAPPED reference loop
of claim C1 — run the day loop until the remaining wealth no longer covers
the current daily expense, with no other stopping rule.  The loop is
realised by running `simLoop` with provably sufficient fuel `specFuel`
(see `specLongevity_fuel_irrelevant`: under `1 ≤ dailyMul` and a positive
daily expense, any fuel of at least `specFuel` gives the same day count,
so this is the genuine uncapped loop). -/
def specDays (usdWealth monthlyExpenseToday dailyMul : ℚ) : ℕ :=
  simLoop dailyMul (specFuel usdWealth (monthlyExpenseToday / 30))
    usdWealth (monthlyExpenseToday / 30)

/-- Modelled from the spec: the reference longevity algorithm of claim C1,
exactly as the claim states it (guard, daily expense `m / 30`, uncapped
day loop, conversion `days div 365`, `(days mod 365) div 30`,
`((days mod 365) mod 30) div 7`) — note it has NO 200-year cap. -/
def specLongevity (usdWealth monthlyExpenseToday dailyMul : ℚ) : ℤ × ℤ × ℤ :=
  if usdWealth ≤ 0 ∨ monthlyExpenseToday ≤ 0 then (0, 0, 0)
  else daysToYMW (specDays usdWealth monthlyExpenseToday dailyMul)

/-! ### Battery percentage curve (`batteryPercentFromVoltage`) -/

/-- The source's anchor table, `voltTable` paired with `socTable`:
`(3.20,0), (3.30,2), (3.60,25), (3.75,50), (3.85,70), (3.95,90),
(4.05,97), (4.15,100)`. -/
def anchors : List (ℚ × ℤ) :=
  [(3.20, 0), (3.30, 2), (3.60, 25), (3.75, 50),
   (3.85, 70), (3.95, 90), (4.05, 97), (4.15, 100)]

/-- The source's sequential clamp of the interpolated state of charge:
`if (soc < 0) soc = 0; if (soc > 100) soc = 100;` (at most one branch can
fire, so the sequence is the nested conditional). -/
def clampSoc (soc : ℚ) : ℚ :=
  if soc < 0 then 0 else if soc > 100 then 100 else soc

/-- The source's `for (i = 0; i < NUM_POINTS - 1; i++)` segment search, as
structural recursion over the list of consecutive anchor pairs: the first
segment with `v1 ≤ v ∧ v ≤ v2` interpolates
`soc = soc1 + (v - v1)/(v2 - v1) * (soc2 - soc1)`, clamps, and returns
`(int)(soc + 0.5f)` — truncation toward zero, which on the clamped
nonnegative value is the floor.  Falling off the loop returns 0. -/
def segLoop (v : ℚ) : List ((ℚ × ℤ) × (ℚ × ℤ)) → ℤ
  | [] => 0
  | ((v1, soc1), (v2, soc2)) :: rest =>
    if v1 ≤ v ∧ v ≤ v2 then
      ⌊clampSoc ((soc1 : ℚ) + (v - v1) / (v2 - v1) * ((soc2 : ℚ) - (soc1 : ℚ))) + 1 / 2⌋
    else segLoop v rest

/-- The list of consecutive anchor pairs the segment search walks. -/
def segTable : List ((ℚ × ℤ) × (ℚ × ℤ)) := anchors.zip anchors.tail

/-- Function `batteryPercentFromVoltage` from the source: clamp below the first
anchor (`v ≤ 3.20 → 0`) and above the last (`v ≥ 4.15 → 100`), otherwise
search the segments.  (`3.20 = voltTable[0]`, `4.15 = voltTable[7]`,
`0 = socTable[0]`, `100 = socTable[7]`.) -/
def batteryPercentFromVoltage (v : ℚ) : ℤ :=
  if v ≤ 3.20 then 0
  else if 4.15 ≤ v then 100
  else segLoop v segTable

/-! ### Numeric input sanitizer (`parseFloatSafe`) -/

/-- Whitespace characters skipped by C `strtof` (`isspace`): space, tab,
newline, vertical tab, form feed, carriage return. -/
def isSpaceChar (c : Char) : Bool :=
  c == ' ' || c == '\t' || c == '\n' || c == Char.ofNat 11 ||
    c == Char.ofNat 12 || c == '\r'

/-- Numeric value of a decimal digit character. -/
def digitVal (c : Char) : ℕ := c.toNat - 48

/-- Value of a digit string read most-significant first. -/
def natOfDigits (ds : List Char) : ℕ :=
  ds.foldl (fun a c => a * 10 + digitVal c) 0

/-- Value of the digits after the decimal point. -/
def fracOfDigits (ds : List Char) : ℚ :=
  (natOfDigits ds : ℚ) / 10 ^ ds.length

/-- Optional sign: returns (is-negative, rest). -/
def readSign : List Char → Bool × List Char
  | '-' :: rest => (true, rest)
  | '+' :: rest => (false, rest)
  | cs => (false, cs)

/-- Optional exponent part `e`/`E` sign digits; if the digits are absent,
C backs up and the exponent contributes nothing, i.e. is 0. -/
def readExp (cs : List Char) : ℤ :=
  match cs with
  | c :: rest =>
    if c == 'e' || c == 'E' then
      let s := readSign rest
      let ds := (s.2.takeWhile Char.isDigit)
      if ds = [] then 0
      else if s.1 then -(natOfDigits ds : ℤ) else (natOfDigits ds : ℤ)
    else 0
  | [] => 0

/-- Model of C `strtof(s, &end)` restricted to the decimal grammar
(optional whitespace, optional sign, digits with optional fraction,
optional exponent; the hexadecimal, infinity and NaN forms are not
modelled — no claim depends on them).  Returns `none` exactly when no
conversion is performed (`end == s`). -/
def strtofModel (cs : List Char) : Option ℚ :=
  let cs1 := cs.dropWhile isSpaceChar
  let sg := readSign cs1
  let intDs := sg.2.takeWhile Char.isDigit
  let cs3 := sg.2.dropWhile Char.isDigit
  let fracDs :=
    match cs3 with
    | '.' :: rest => rest.takeWhile Char.isDigit
    | _ => []
  let cs4 :=
    match cs3 with
    | '.' :: rest => rest.dropWhile Char.isDigit
    | _ => cs3
  if intDs = [] ∧ fracDs = [] then none
  else
    let mant : ℚ := (natOfDigits intDs : ℚ) + fracOfDigits fracDs
    let v : ℚ := mant * (10 : ℚ) ^ readExp cs4
    some (if sg.1 then -v else v)

/-- Function `parseFloatSafe` from the source.  The argument is `Option` to model
the possibly-null C pointer: `if (!s || !*s) return 0.0f;` then `strtof`,
`if (end == s) return 0.0f;` and finally `clampNonNegative`. -/
def parseFloatSafe (s : Option (List Char)) : ℚ :=
  match s with
  | none => 0
  | some cs =>
    if cs = [] then 0
    else
      match strtofModel cs with
      | none => 0
      | some v => clampNonNegative v

/-! ### MQTT buffers, callback, retained state and the wake cycle -/

/-- The NUL terminator byte. -/
def nulChar : Char := Char.ofNat 0

/-- Constant `MONTHLY_EXP_USD = 10000.0f` from the source. -/
def MONTHLY_EXP_USD : ℚ := 10000

/-- Constant `TOPIC_PRICE_USD` from the source. -/
def TOPIC_PRICE_USD : String := "home/bitcoin/price/usd"

/-- Constant `TOPIC_BALANCE_BTC` from the source. -/
def TOPIC_BALANCE_BTC : String := "home/bitcoin/wallets/total_btc"

/-- The C-string value held in a byte buffer: the bytes before the first
NUL. -/
def cString (l : List Char) : List Char := l.takeWhile (fun c => c != nulChar)

/-- Function `safeCopy(dst, dstSize, src, srcLen)` from the source, acting on the
destination buffer contents: `n = min(srcLen, dstSize-1)`; `memcpy` the
first `n` source bytes over the start of `dst` only when `src` is non-null
and `srcLen > 0`; always write `dst[n] = '\0'`.  (The null-`dst` guard has
no counterpart: the buffer is the value being transformed.) -/
def safeCopy (dst : List Char) (dstSize : ℕ) (src : Option (List Char))
    (srcLen : ℕ) : List Char :=
  if dstSize = 0 then dst
  else
    let n := min srcLen (dstSize - 1)
    let dst1 :=
      match src with
      | none => dst
      | some s => if 0 < srcLen then s.take n ++ dst.drop n else dst
    dst1.set n nulChar

/-- The incoming-message globals of the source: the two received flags and
the two 16-byte payload buffers. -/
structure MsgBuffers where
  gotPrice : Bool
  gotBalance : Bool
  priceUsdBuf : List Char
  balanceBtcBuf : List Char
deriving DecidableEq

/-- Function `mqttCallback(topic, payload, length)` from the source as a transformer
of the message globals: ignore null topic / null payload / empty payload;
store the payload via `safeCopy` and raise the flag for a recognized
topic; ignore all other topics. -/
def mqttCallback (topic : Option String) (payload : Option (List Char))
    (length : ℕ) (st : MsgBuffers) : MsgBuffers :=
  if topic = none ∨ payload = none ∨ length = 0 then st
  else if topic = some TOPIC_PRICE_USD then
    { st with priceUsdBuf := safeCopy st.priceUsdBuf 16 payload length,
              gotPrice := true }
  else if topic = some TOPIC_BALANCE_BTC then
    { st with balanceBtcBuf := safeCopy st.balanceBtcBuf 16 payload length,
              gotBalance := true }
  else st

/-- The RTC-persisted values surviving deep sleep (`lastPriceUsd`,
`lastBalanceBtc`), as their C-string values. -/
structure Retained where
  lastPriceUsd : List Char
  lastBalanceBtc : List Char
deriving DecidableEq

/-- First-power-on sentinels: `RTC_DATA_ATTR char lastPriceUsd[16] = "--"`,
`lastBalanceBtc[16] = "--"`. -/
def initialRetained : Retained :=
  { lastPriceUsd := ['-', '-'], lastBalanceBtc := ['-', '-'] }

/-- The reset at the start of `setup`'s MQTT section:
`gotPrice = false; gotBalance = false; priceUsdBuf[0] = '\0';
balanceBtcBuf[0] = '\0';` (only byte 0 of each buffer is cleared). -/
def resetBuffers (b : MsgBuffers) : MsgBuffers :=
  { gotPrice := false, gotBalance := false,
    priceUsdBuf := b.priceUsdBuf.set 0 nulChar,
    balanceBtcBuf := b.balanceBtcBuf.set 0 nulChar }

/-- What each subscribed topic delivered during the 4-second service
window of a wake cycle (`none` = topic silent). -/
structure Fetched where
  priceMsg : Option (List Char)
  balanceMsg : Option (List Char)

/-- Message servicing: each delivered payload is handed to `mqttCallback`
with its topic and its actual byte length, as `mqttClient.loop()` does. -/
def serviceMessages (f : Fetched) (b : MsgBuffers) : MsgBuffers :=
  let b1 :=
    match f.priceMsg with
    | none => b
    | some p => mqttCallback (some TOPIC_PRICE_USD) (some p) p.length b
  match f.balanceMsg with
  | none => b1
  | some p => mqttCallback (some TOPIC_BALANCE_BTC) (some p) p.length b1

/-- The persistence step at the end of `setup`: for each received flag,
`strncpy` the buffer's C-string into the retained 16-byte array (at most
15 bytes) and NUL-terminate; otherwise leave the retained value alone. -/
def persistRetained (b : MsgBuffers) (st : Retained) : Retained :=
  { lastPriceUsd :=
      if b.gotPrice then (cString b.priceUsdBuf).take 15 else st.lastPriceUsd,
    lastBalanceBtc :=
      if b.gotBalance then (cString b.balanceBtcBuf).take 15 else st.lastBalanceBtc }

/-- The observable outcome of one wake cycle. -/
structure CycleResult where
  priceUsd : ℚ
  balanceBtc : ℚ
  longevity : ℤ × ℤ × ℤ
  retainedAfter : Retained
deriving DecidableEq

/-- The data path of `setup()` from the buffer/flag reset to the persist
step: reset the globals, service the delivered messages, fall back to the
retained strings for unreceived values, parse, compute the longevity
(`usdWealth = balanceBtc * priceUsd`, monthly expense `MONTHLY_EXP_USD`,
and the daily multiplier abstracted as `dailyMul`, see the header), and
persist the received payloads.  `prev` is the (stale) global buffer state
left over from before the cycle. -/
def wakeCycle (dailyMul : ℚ) (st : Retained) (prev : MsgBuffers)
    (f : Fetched) : CycleResult :=
  let b := serviceMessages f (resetBuffers prev)
  let priceStr := if b.gotPrice then cString b.priceUsdBuf else st.lastPriceUsd
  let balanceStr := if b.gotBalance then cString b.balanceBtcBuf else st.lastBalanceBtc
  let priceUsd := parseFloatSafe (some priceStr)
  let balanceBtc := parseFloatSafe (some balanceStr)
  let usdWealth := balanceBtc * priceUsd
  { priceUsd := priceUsd
    balanceBtc := balanceBtc
    longevity := computeLongevityWithInflation usdWealth MONTHLY_EXP_USD dailyMul
    retainedAfter := persistRetained b st }

/-! ### The order of steps in `setup()` -/

/-- The steps of `setup()`, in source order, named after what they do. -/
inductive SetupStep where
  | powerOnDisplay
  | measureBattery
  | wifiConnect
  | ntpTimeSync
  | resetBuffersFlags
  | mqttConnect
  | mqttSubscribe
  | serviceLoop
  | fallbackAndCompute
  | renderFrame
  | persistValues
  | disconnectAll
  | enterDeepSleep
deriving DecidableEq

/-- The sequence of steps `setup()` executes, by branch outcome:
`wifiOK` is the result of `connectWiFi()` (always attempted), `mqttOK` the
result of `connectMQTT()` (attempted only when `wifiOK`; subscribing
happens inside it on success, and the 4-second service loop runs only when
it succeeded).  NTP sync runs only when `wifiOK`.  The buffer/flag reset
(`gotPrice = false; gotBalance = false; priceUsdBuf[0] = balanceBtcBuf[0]
= '\0'`) sits between the NTP block and the MQTT block. -/
def setupTrace (wifiOK mqttOK : Bool) : List SetupStep :=
  [SetupStep.powerOnDisplay, SetupStep.measureBattery, SetupStep.wifiConnect]
  ++ (if wifiOK then [SetupStep.ntpTimeSync] else [])
  ++ [SetupStep.resetBuffersFlags]
  ++ (if wifiOK then [SetupStep.mqttConnect] else [])
  ++ (if wifiOK && mqttOK then [SetupStep.mqttSubscribe, SetupStep.serviceLoop] else [])
  ++ [SetupStep.fallbackAndCompute, SetupStep.renderFrame,
      SetupStep.persistValues, SetupStep.disconnectAll, SetupStep.enterDeepSleep]

/-- Steps that touch the network (Wi-Fi, NTP or the MQTT broker). -/
def isNetworkOp : SetupStep → Bool
  | SetupStep.wifiConnect => true
  | SetupStep.ntpTimeSync => true
  | SetupStep.mqttConnect => true
  | SetupStep.mqttSubscribe => true
  | SetupStep.serviceLoop => true
  | SetupStep.disconnectAll => true
  | _ => false

/-- Steps through which an MQTT message can reach the callback (the broker
connection, the subscriptions, and the message-service loop). -/
def isMqttDeliveryOp : SetupStep → Bool
  | SetupStep.mqttConnect => true
  | SetupStep.mqttSubscribe => true
  | SetupStep.serviceLoop => true
  | _ => false

/-! ### Day-loop lemmas -/

/-- The day loop never runs more days than its fuel allows. -/
theorem simLoop_le_fuel (dailyMul : ℚ) :
    ∀ (fuel : ℕ) (w e : ℚ), simLoop dailyMul fuel w e ≤ fuel := by
  intro fuel
  induction fuel with
  | zero => intro w e; simp [simLoop]
  | succ n ih =>
    intro w e
    rw [simLoop]
    split
    · omega
    · have := ih (w - e) (e * dailyMul)
      omega

/-- Truncation: running the loop with smaller fuel `f₁ ≤ f₂` yields the
minimum of `f₁` and the day count obtained with fuel `f₂`. -/
theorem simLoop_min (dailyMul : ℚ) :
    ∀ (f₁ f₂ : ℕ) (w e : ℚ), f₁ ≤ f₂ →
      simLoop dailyMul f₁ w e = min f₁ (simLoop dailyMul f₂ w e) := by
  intro f₁
  induction f₁ with
  | zero => intro f₂ w e _; simp [simLoop]
  | succ n ih =>
    intro f₂ w e h
    obtain ⟨m, rfl⟩ : ∃ m, f₂ = m + 1 := ⟨f₂ - 1, by omega⟩
    rw [simLoop, simLoop]
    split
    · simp
    · have := ih m (w - e) (e * dailyMul) (by omega)
      have := simLoop_le_fuel dailyMul m (w - e) (e * dailyMul)
      omega

/-- When `1 ≤ dailyMul`, `0 < d` and the current expense is at least `d`,
the loop runs at most `⌈w / d⌉` days: each executed day removes at least
`d` from the wealth and requires the wealth to still be at least `d`. -/
theorem simLoop_le_ceil (dailyMul d : ℚ) (hmul : 1 ≤ dailyMul) (hd : 0 < d) :
    ∀ (fuel : ℕ) (w e : ℚ), d ≤ e →
      (simLoop dailyMul fuel w e : ℤ) ≤ (⌈w / d⌉).toNat := by
  intro fuel
  induction fuel with
  | zero => intro w e _; simp [simLoop]
  | succ n ih =>
    intro w e he
    rw [simLoop]
    split
    · simp
    · rename_i hstop
      push_neg at hstop
      have he' : d ≤ e * dailyMul := le_trans he (by nlinarith)
      have hrec := ih (w - e) (e * dailyMul) he'
      have hsub : (w - e) / d ≤ w / d - 1 := by
        rw [sub_div, sub_le_sub_iff_left]
        exact (one_le_div hd).mpr he
      have hceil : ⌈(w - e) / d⌉ ≤ ⌈w / d⌉ - 1 := by
        have := Int.ceil_le_ceil hsub
        rwa [Int.ceil_sub_one] at this
      have hone : 1 ≤ ⌈w / d⌉ := by
        have hwd : (1 : ℚ) ≤ w / d := (one_le_div hd).mpr (le_trans he hstop)
        calc (1 : ℤ) = ⌈(1 : ℚ)⌉ := by simp
        _ ≤ ⌈w / d⌉ := Int.ceil_le_ceil hwd
      push_cast
      push_cast at hrec
      omega

/-- Fuel irrelevance: with `1 ≤ dailyMul`, `0 < d`, any fuel of at least
`specFuel w d` produces the same day count as `specFuel w d` itself — so
`specLongevity`'s use of `specFuel` implements the genuinely uncapped
reference loop. -/
theorem specLongevity_fuel_irrelevant (dailyMul d w : ℚ) (hmul : 1 ≤ dailyMul)
    (hd : 0 < d) (fuel : ℕ) (hfuel : specFuel w d ≤ fuel) :
    simLoop dailyMul fuel w d = simLoop dailyMul (specFuel w d) w d := by
  have hmin := simLoop_min dailyMul (specFuel w d) fuel w d hfuel
  have hle := simLoop_le_ceil dailyMul d hmul hd fuel w d le_rfl
  have : simLoop dailyMul fuel w d < specFuel w d := by
    unfold specFuel
    omega
  omega

/-- Closed form at zero inflation (`dailyMul = 1`): the expense stays
constant, so the fueled loop counts `min fuel ⌊w / d⌋` days. -/
theorem simLoop_one (d : ℚ) (hd : 0 < d) :
    ∀ (fuel : ℕ) (w : ℚ), simLoop 1 fuel w d = min fuel (⌊w / d⌋).toNat := by
  intro fuel
  induction fuel with
  | zero => intro w; simp [simLoop]
  | succ n ih =>
    intro w
    rw [simLoop]
    split
    · rename_i hlt
      have : w / d < 1 := (div_lt_one hd).mpr hlt
      have : ⌊w / d⌋ < 1 := Int.floor_lt.mpr (by push_cast; exact this)
      omega
    · rename_i hge
      push_neg at hge
      rw [mul_one, ih (w - d)]
      have hfl : ⌊(w - d) / d⌋ = ⌊w / d⌋ - 1 := by
        rw [sub_div, div_self (ne_of_gt hd)]
        exact Int.floor_sub_one (w / d)
      have hone : 1 ≤ ⌊w / d⌋ := by
        have : (1 : ℚ) ≤ w / d := (one_le_div hd).mpr hge
        calc (1 : ℤ) = ⌊(1 : ℚ)⌋ := by simp
        _ ≤ ⌊w / d⌋ := Int.floor_le_floor this
      rw [hfl]
      omega

/-- A segment whose upper voltage lies strictly below `v` is skipped. -/
theorem segLoop_skip (v v1 v2 : ℚ) (s1 s2 : ℤ)
    (rest : List ((ℚ × ℤ) × (ℚ × ℤ))) (h : v2 < v) :
    segLoop v (((v1, s1), (v2, s2)) :: rest) = segLoop v rest := by
  rw [segLoop, if_neg]
  rintro ⟨-, h2⟩
  linarith

/-- On a segment containing `v` strictly, with percents ascending inside
`[0,100]`, the code's clamp-then-half-up-floor equals the spec's
round-to-nearest-then-clamp of the raw interpolation. -/
theorem segLoop_hit (v v1 v2 : ℚ) (s1 s2 : ℤ)
    (rest : List ((ℚ × ℤ) × (ℚ × ℤ))) (h1 : v1 < v) (h2 : v < v2)
    (hs : s1 < s2) (hs0 : 0 ≤ s1) (hs100 : s2 ≤ 100) :
    segLoop v (((v1, s1), (v2, s2)) :: rest) =
      max 0 (min 100
        (round ((s1 : ℚ) + (v - v1) / (v2 - v1) * ((s2 : ℚ) - (s1 : ℚ))))) := by
  rw [segLoop, if_pos ⟨le_of_lt h1, le_of_lt h2⟩]
  have hv21 : (0 : ℚ) < v2 - v1 := by linarith
  have ht0 : 0 < (v - v1) / (v2 - v1) := div_pos (by linarith) hv21
  have ht1 : (v - v1) / (v2 - v1) < 1 := (div_lt_one hv21).mpr (by linarith)
  have hs' : (0 : ℚ) < (s2 : ℚ) - (s1 : ℚ) := by
    exact sub_pos.mpr (by exact_mod_cast hs)
  have hlo : (s1 : ℚ) ≤ (s1 : ℚ) + (v - v1) / (v2 - v1) * ((s2 : ℚ) - (s1 : ℚ)) := by nlinarith
  have hhi : (s1 : ℚ) + (v - v1) / (v2 - v1) * ((s2 : ℚ) - (s1 : ℚ)) ≤ (s2 : ℚ) := by nlinarith
  have hs0' : (0 : ℚ) ≤ (s1 : ℚ) := by exact_mod_cast hs0
  have hs100' : ((s2 : ℚ)) ≤ 100 := by exact_mod_cast hs100
  rw [clampSoc, if_neg (by linarith), if_neg (by linarith), ← round_eq]
  have hrlo : (0 : ℤ) ≤ round ((s1 : ℚ) + (v - v1) / (v2 - v1) * ((s2 : ℚ) - (s1 : ℚ))) := by
    rw [round_eq]
    exact Int.le_floor.mpr (by push_cast; linarith)
  have hrhi : round ((s1 : ℚ) + (v - v1) / (v2 - v1) * ((s2 : ℚ) - (s1 : ℚ))) ≤ 100 := by
    rw [round_eq]
    have : ⌊(s1 : ℚ) + (v - v1) / (v2 - v1) * ((s2 : ℚ) - (s1 : ℚ)) + 1 / 2⌋ < 101 :=
      Int.floor_lt.mpr (by push_cast; linarith)
    omega
  omega

/-! ### Buffer lemmas -/

/-- Setting the element at position `A.length` of `A ++ B` sets the head
of `B`. -/
theorem set_append_length (A B : List Char) (c : Char) :
    (A ++ B).set A.length c = A ++ B.set 0 c := by
  induction A with
  | nil => simp
  | cons a A ih => simp [List.set, ih]

/-- The C-string value stops at the first NUL, whatever follows it. -/
theorem cString_append_nul (A B : List Char) :
    cString (A ++ nulChar :: B) = cString A := by
  induction A with
  | nil => simp [cString]
  | cons a A ih =>
    simp only [cString, List.cons_append, List.takeWhile_cons] at ih ⊢
    cases h : (a != nulChar) <;> simp [h, ih]

/-- Running `safeCopy` on a 16-byte buffer from a nonempty source of its exact
length yields: the first `min srcLen 15` source bytes, a NUL terminator,
then the stale buffer tail. -/
theorem safeCopy_eq (dst s : List Char) (hdst : dst.length = 16) (hs : s ≠ []) :
    safeCopy dst 16 (some s) s.length =
      s.take (min s.length 15) ++ nulChar :: dst.drop (min s.length 15 + 1) := by
  have hlen : 0 < s.length := List.length_pos.mpr hs
  rw [safeCopy, if_neg (by decide)]
  simp only [if_pos hlen]
  have hn : min s.length (16 - 1) = min s.length 15 := by norm_num
  rw [hn]
  have htk : (s.take (min s.length 15)).length = min s.length 15 :=
    List.length_take_of_le (min_le_left _ _)
  have hset := set_append_length (s.take (min s.length 15))
    (dst.drop (min s.length 15)) nulChar
  rw [htk] at hset
  rw [hset]
  have hdrop : dst.drop (min s.length 15) ≠ [] := by
    rw [← List.length_pos, List.length_drop, hdst]
    omega
  obtain ⟨b, B, hB⟩ : ∃ b B, dst.drop (min s.length 15) = b :: B :=
    List.exists_cons_of_ne_nil hdrop
  rw [hB, List.set]
  have : B = dst.drop (min s.length 15 + 1) := by
    rw [← List.tail_drop, hB]
    rfl
  rw [this]

/-- The C-string stored by `safeCopy`: the source truncated to 15 bytes
(and cut at any internal NUL). -/
theorem cString_safeCopy (dst s : List Char) (hdst : dst.length = 16) (hs : s ≠ []) :
    cString (safeCopy dst 16 (some s) s.length) = cString (s.take 15) := by
  rw [safeCopy_eq dst s hdst hs, cString_append_nul]
  rw [min_comm, ← List.take_take, List.take_length]

/-- Lemma: `safeCopy` always writes a NUL terminator, at index `min srcLen 15`. -/
theorem safeCopy_nul_at (dst s : List Char) (hdst : dst.length = 16) (hs : s ≠ []) :
    (safeCopy dst 16 (some s) s.length)[min s.length 15]? = some nulChar := by
  rw [safeCopy_eq dst s hdst hs]
  have htk : (s.take (min s.length 15)).length = min s.length 15 :=
    List.length_take_of_le (min_le_left _ _)
  have hget := @List.getElem?_append_right Char (s.take (min s.length 15))
    (nulChar :: dst.drop (min s.length 15 + 1)) (min s.length 15) (le_of_eq htk)
  rw [hget, htk]
  simp

/-- The stored C-string never exceeds 15 bytes. -/
theorem cString_safeCopy_length (dst s : List Char) (hdst : dst.length = 16)
    (hs : s ≠ []) : (cString (safeCopy dst 16 (some s) s.length)).length ≤ 15 := by
  rw [cString_safeCopy dst s hdst hs]
  calc (cString (s.take 15)).length ≤ (s.take 15).length := by
        rw [cString]
        exact List.Sublist.length_le (List.takeWhile_sublist _)
  _ ≤ 15 := by
        rw [List.length_take]
        omega

/-! ### Claims C1–C4: the longevity simulator -/

/-- C4: for every wealth ≤ 0, or every monthly expense ≤ 0, and any
inflation rate (any daily multiplier), `computeLongevityWithInflation`
returns exactly `(0, 0, 0)`. -/
theorem computeLongevity_zero_on_nonpos (w m mul : ℚ) (h : w ≤ 0 ∨ m ≤ 0) :
    computeLongevityWithInflation w m mul = (0, 0, 0) := by
  rw [computeLongevityWithInflation, if_pos h]

/-- Witness for `computeLongevity_zero_on_nonpos` at wealth 0, expense 5. -/
theorem computeLongevity_zero_on_nonpos_witness :
    ((0 : ℚ) ≤ 0 ∨ (5 : ℚ) ≤ 0) ∧ computeLongevityWithInflation 0 5 1 = (0, 0, 0) :=
  ⟨Or.inl le_rfl, computeLongevity_zero_on_nonpos 0 5 1 (Or.inl le_rfl)⟩

/-- C2 (amended): for every input, the triple returned by
`computeLongevityWithInflation` satisfies `years ≥ 0`,
`months ∈ [0, 12]` — 12 is attainable, see
`computeLongevity_months_twelve` — and `weeks ∈ [0, 4]`. -/
theorem computeLongevity_bounds (w m mul : ℚ) :
    0 ≤ (computeLongevityWithInflation w m mul).1 ∧
    0 ≤ (computeLongevityWithInflation w m mul).2.1 ∧
    (computeLongevityWithInflation w m mul).2.1 ≤ 12 ∧
    0 ≤ (computeLongevityWithInflation w m mul).2.2 ∧
    (computeLongevityWithInflation w m mul).2.2 ≤ 4 := by
  rw [computeLongevityWithInflation]
  split
  · norm_num
  · rw [daysToYMW]
    set n := simLoop mul MAX_DAYS w (m / 30) with hn
    refine ⟨?_, ?_, ?_, ?_, ?_⟩ <;> · simp only
                                      omega

/-- Counterexample to C2 as stated: at wealth 360, monthly expense 30 and
zero inflation (daily multiplier 1) the simulation lasts exactly 360 days,
and the months field is 12 — outside the claimed range [0, 11]. -/
theorem computeLongevity_months_twelve :
    (computeLongevityWithInflation 360 30 1).2.1 = 12 ∧
    ¬ ((computeLongevityWithInflation 360 30 1).2.1 ≤ 11) := by
  have h : computeLongevityWithInflation 360 30 1 = (0, 12, 0) := by
    rw [computeLongevityWithInflation, if_neg (by norm_num)]
    rw [show (30 : ℚ) / 30 = 1 by norm_num]
    rw [simLoop_one 1 one_pos MAX_DAYS 360]
    norm_num [MAX_DAYS, daysToYMW]
  rw [h]
  norm_num

/-- C3: the day loop of `computeLongevityWithInflation` performs at most
`365 × 200` iterations, the years field never exceeds 200, and the extreme
input (wealth = 1e12, expense = 0.01, inflation = 0) terminates with years
capped at exactly 200. -/
theorem computeLongevity_capped :
    (∀ w m mul : ℚ, simLoop mul MAX_DAYS w (m / 30) ≤ MAX_DAYS ∧
      (computeLongevityWithInflation w m mul).1 ≤ 200) ∧
    computeLongevityWithInflation (10 ^ 12) (1 / 100) 1 = (200, 0, 0) := by
  constructor
  · intro w m mul
    refine ⟨simLoop_le_fuel mul MAX_DAYS w (m / 30), ?_⟩
    rw [computeLongevityWithInflation]
    split
    · norm_num
    · rw [daysToYMW]
      have := simLoop_le_fuel mul MAX_DAYS w (m / 30)
      set n := simLoop mul MAX_DAYS w (m / 30) with hn
      simp only
      rw [MAX_DAYS] at this
      omega
  · rw [computeLongevityWithInflation, if_neg (by norm_num)]
    rw [simLoop_one ((1 : ℚ) / 100 / 30) (by norm_num) MAX_DAYS (10 ^ 12)]
    rw [show ((10 : ℚ) ^ 12) / ((1 : ℚ) / 100 / 30) = 3 * 10 ^ 15 by norm_num]
    rw [show ⌊(3 * 10 ^ 15 : ℚ)⌋ = 3 * 10 ^ 15 by norm_num]
    rw [show ((3 * 10 ^ 15 : ℤ)).toNat = 3 * 10 ^ 15 by decide]
    norm_num [MAX_DAYS, daysToYMW]

/-- C1 (amended): for wealth > 0, expense > 0 and daily multiplier ≥ 1
(i.e. inflation clamped to be nonnegative), `computeLongevityWithInflation`
computes exactly the spec's reference day count ADDITIONALLY CAPPED at
`365 × 200` days, then applies the claimed days→(years, months, weeks)
conversion.  Without the cap the claim fails: see
`computeLongevity_cap_detaches_from_spec`. -/
theorem computeLongevity_refines_capped_spec (w m mul : ℚ)
    (hw : 0 < w) (hm : 0 < m) (hmul : 1 ≤ mul) :
    computeLongevityWithInflation w m mul =
      daysToYMW (min MAX_DAYS (specDays w m mul)) := by
  have hd : 0 < m / 30 := by positivity
  rw [computeLongevityWithInflation, if_neg (by push_neg; constructor <;> linarith)]
  rw [specDays]
  have hbig₁ : MAX_DAYS ≤ max (specFuel w (m / 30)) MAX_DAYS := le_max_right _ _
  have hbig₂ : specFuel w (m / 30) ≤ max (specFuel w (m / 30)) MAX_DAYS := le_max_left _ _
  have h₁ := simLoop_min mul MAX_DAYS (max (specFuel w (m / 30)) MAX_DAYS) w (m / 30) hbig₁
  have h₂ := specLongevity_fuel_irrelevant mul (m / 30) w hmul hd
    (max (specFuel w (m / 30)) MAX_DAYS) hbig₂
  rw [h₁, h₂]

/-- Witness for `computeLongevity_refines_capped_spec` at wealth 30,
expense 30, daily multiplier 1. -/
theorem computeLongevity_refines_capped_spec_witness :
    ((0 : ℚ) < 30 ∧ (1 : ℚ) ≤ 1) ∧
    computeLongevityWithInflation 30 30 1 = daysToYMW (min MAX_DAYS (specDays 30 30 1)) :=
  ⟨⟨by decide, le_rfl⟩, computeLongevity_refines_capped_spec 30 30 1 (by decide) (by decide) le_rfl⟩

/-- Counterexample to C1 as stated: at wealth 73007, monthly expense 30
and zero inflation (daily multiplier 1), the code (capped at 73000 days)
returns (200 years, 0 months, 0 weeks) while the claim's uncapped
reference algorithm runs 73007 days and returns (200, 0, 1). -/
theorem computeLongevity_cap_detaches_from_spec :
    computeLongevityWithInflation 73007 30 1 = (200, 0, 0) ∧
    specLongevity 73007 30 1 = (200, 0, 1) ∧
    computeLongevityWithInflation 73007 30 1 ≠ specLongevity 73007 30 1 := by
  have hone : (30 : ℚ) / 30 = 1 := by norm_num
  have hcode : computeLongevityWithInflation 73007 30 1 = (200, 0, 0) := by
    rw [computeLongevityWithInflation, if_neg (by norm_num)]
    rw [hone, simLoop_one 1 one_pos MAX_DAYS 73007]
    rw [show ⌊(73007 : ℚ) / 1⌋ = 73007 by norm_num]
    norm_num [MAX_DAYS, daysToYMW]
  have hspec : specLongevity 73007 30 1 = (200, 0, 1) := by
    rw [specLongevity, if_neg (by norm_num), specDays]
    rw [hone, simLoop_one 1 one_pos _ 73007]
    rw [show specFuel 73007 1 = 73008 by
      rw [specFuel, show ⌈(73007 : ℚ) / 1⌉ = 73007 by norm_num]
      decide]
    rw [show ⌊(73007 : ℚ) / 1⌋ = 73007 by norm_num]
    norm_num [daysToYMW]
  refine ⟨hcode, hspec, ?_⟩
  rw [hcode, hspec]
  decide

/-! ### Claim C5: the battery percentage curve -/

/-- C5: `batteryPercentFromVoltage` reproduces the spec's piecewise-linear
curve exactly: 0 at and below 3.20 V, 100 at and above 4.15 V, exactly 50
at the 3.75 V anchor, and between two consecutive anchors of the table the
linear interpolation of their percents, rounded to nearest and clamped to
`[0, 100]`. -/
theorem batteryPercent_matches_curve :
    (∀ v : ℚ, v ≤ 3.20 → batteryPercentFromVoltage v = 0) ∧
    (∀ v : ℚ, 4.15 ≤ v → batteryPercentFromVoltage v = 100) ∧
    batteryPercentFromVoltage 3.75 = 50 ∧
    (∀ seg ∈ segTable, ∀ v : ℚ, seg.1.1 < v → v < seg.2.1 →
      batteryPercentFromVoltage v =
        max 0 (min 100 (round ((seg.1.2 : ℚ) +
          (v - seg.1.1) / (seg.2.1 - seg.1.1) * ((seg.2.2 : ℚ) - (seg.1.2 : ℚ)))))) := by
  have hst : segTable =
      [((3.20, 0), (3.30, 2)), ((3.30, 2), (3.60, 25)), ((3.60, 25), (3.75, 50)),
       ((3.75, 50), (3.85, 70)), ((3.85, 70), (3.95, 90)), ((3.95, 90), (4.05, 97)),
       ((4.05, 97), (4.15, 100))] := rfl
  refine ⟨?_, ?_, ?_, ?_⟩
  · intro v hv
    rw [batteryPercentFromVoltage, if_pos hv]
  · intro v hv
    rw [batteryPercentFromVoltage, if_neg (by push_neg; linarith), if_pos hv]
  · rw [batteryPercentFromVoltage, if_neg (by norm_num), if_neg (by norm_num), hst]
    rw [segLoop_skip _ _ _ _ _ _ (by norm_num), segLoop_skip _ _ _ _ _ _ (by norm_num)]
    rw [segLoop, if_pos ⟨by norm_num, le_refl _⟩]
    rw [show clampSoc (((25 : ℤ) : ℚ) + (3.75 - 3.60) / (3.75 - 3.60) *
        (((50 : ℤ) : ℚ) - ((25 : ℤ) : ℚ))) = 50 by rw [clampSoc]; norm_num]
    rw [Int.floor_eq_iff]
    norm_num
  · intro seg hseg v h1 h2
    rw [hst] at hseg
    have hout : ∀ x : ℚ, 3.20 < x → x < 4.15 →
        batteryPercentFromVoltage x = segLoop x segTable := by
      intro x hx1 hx2
      rw [batteryPercentFromVoltage, if_neg (by linarith), if_neg (by linarith)]
    fin_cases hseg <;> simp only at h1 h2 ⊢
    · rw [hout v (by linarith) (by linarith), hst]
      rw [segLoop_hit _ _ _ _ _ _ h1 h2 (by norm_num) (by norm_num) (by norm_num)]
    · rw [hout v (by linarith) (by linarith), hst]
      rw [segLoop_skip _ _ _ _ _ _ (by linarith)]
      rw [segLoop_hit _ _ _ _ _ _ h1 h2 (by norm_num) (by norm_num) (by norm_num)]
    · rw [hout v (by linarith) (by linarith), hst]
      rw [segLoop_skip _ _ _ _ _ _ (by linarith), segLoop_skip _ _ _ _ _ _ (by linarith)]
      rw [segLoop_hit _ _ _ _ _ _ h1 h2 (by norm_num) (by norm_num) (by norm_num)]
    · rw [hout v (by linarith) (by linarith), hst]
      rw [segLoop_skip _ _ _ _ _ _ (by linarith), segLoop_skip _ _ _ _ _ _ (by linarith),
        segLoop_skip _ _ _ _ _ _ (by linarith)]
      rw [segLoop_hit _ _ _ _ _ _ h1 h2 (by norm_num) (by norm_num) (by norm_num)]
    · rw [hout v (by linarith) (by linarith), hst]
      rw [segLoop_skip _ _ _ _ _ _ (by linarith), segLoop_skip _ _ _ _ _ _ (by linarith),
        segLoop_skip _ _ _ _ _ _ (by linarith), segLoop_skip _ _ _ _ _ _ (by linarith)]
      rw [segLoop_hit _ _ _ _ _ _ h1 h2 (by norm_num) (by norm_num) (by norm_num)]
    · rw [hout v (by linarith) (by linarith), hst]
      rw [segLoop_skip _ _ _ _ _ _ (by linarith), segLoop_skip _ _ _ _ _ _ (by linarith),
        segLoop_skip _ _ _ _ _ _ (by linarith), segLoop_skip _ _ _ _ _ _ (by linarith),
        segLoop_skip _ _ _ _ _ _ (by linarith)]
      rw [segLoop_hit _ _ _ _ _ _ h1 h2 (by norm_num) (by norm_num) (by norm_num)]
    · rw [hout v (by linarith) (by linarith), hst]
      rw [segLoop_skip _ _ _ _ _ _ (by linarith), segLoop_skip _ _ _ _ _ _ (by linarith),
        segLoop_skip _ _ _ _ _ _ (by linarith), segLoop_skip _ _ _ _ _ _ (by linarith),
        segLoop_skip _ _ _ _ _ _ (by linarith), segLoop_skip _ _ _ _ _ _ (by linarith)]
      rw [segLoop_hit _ _ _ _ _ _ h1 h2 (by norm_num) (by norm_num) (by norm_num)]

/-- Witness for `batteryPercent_matches_curve`: 3.0 V is at most 3.20 V and
maps to 0 %; 4.2 V is at least 4.15 V and maps to 100 %; 3.80 V lies
strictly inside the (3.75, 50)–(3.85, 70) segment. -/
theorem batteryPercent_matches_curve_witness :
    ((3.0 : ℚ) ≤ 3.20 ∧ batteryPercentFromVoltage 3.0 = 0) ∧
    ((4.15 : ℚ) ≤ 4.2 ∧ batteryPercentFromVoltage 4.2 = 100) ∧
    (((3.75, 50), (3.85, 70)) ∈ segTable ∧ (3.75 : ℚ) < 3.80 ∧ (3.80 : ℚ) < 3.85 ∧
      batteryPercentFromVoltage 3.80 =
        max 0 (min 100 (round ((50 : ℚ) + (3.80 - 3.75) / (3.85 - 3.75) * ((70 : ℚ) - 50))))) :=
  ⟨⟨by norm_num, batteryPercent_matches_curve.1 3.0 (by norm_num)⟩,
   ⟨by norm_num, batteryPercent_matches_curve.2.1 4.2 (by norm_num)⟩,
   ⟨by norm_num [segTable, anchors], by norm_num, by norm_num,
    batteryPercent_matches_curve.2.2.2 ((3.75, 50), (3.85, 70))
      (by norm_num [segTable, anchors]) 3.80 (by norm_num) (by norm_num)⟩⟩

/-! ### Claim C6: the numeric input sanitizer -/

/-- C6: `parseFloatSafe` is total and never returns a negative value: every
input yields a rational ≥ 0; a null or empty string, or a string with no
valid numeric prefix such as `"abc"`, yields 0; `"-5"` parses negative and
is clamped to 0; `"42.5"` yields 42.5. -/
theorem parseFloatSafe_total_nonneg :
    (∀ s : Option (List Char), 0 ≤ parseFloatSafe s) ∧
    parseFloatSafe none = 0 ∧
    parseFloatSafe (some []) = 0 ∧
    parseFloatSafe (some ['a', 'b', 'c']) = 0 ∧
    parseFloatSafe (some ['-', '5']) = 0 ∧
    parseFloatSafe (some ['4', '2', '.', '5']) = 42.5 := by
  refine ⟨?_, rfl, rfl, ?_, ?_, ?_⟩
  · intro s
    rcases s with _ | cs
    · rw [parseFloatSafe]
    · rw [parseFloatSafe]
      split
      · exact le_rfl
      · split
        · exact le_rfl
        · rw [clampNonNegative]
          split
          · exact le_rfl
          · rename_i hv
            exact le_of_not_lt hv
  · simp +decide [parseFloatSafe, strtofModel, readSign, readExp, natOfDigits,
      fracOfDigits, digitVal, isSpaceChar, clampNonNegative]
  · simp +decide [parseFloatSafe, strtofModel, readSign, readExp, natOfDigits,
      fracOfDigits, digitVal, isSpaceChar, clampNonNegative]
  · simp +decide [parseFloatSafe, strtofModel, readSign, readExp, natOfDigits,
      fracOfDigits, digitVal, isSpaceChar, clampNonNegative]
    norm_num

/-! ### Claim C10: the MQTT callback's frame -/

/-- C10: `mqttCallback` leaves both buffers and both flags unchanged on a
null topic, null payload, zero-length payload, or a topic that is neither
the price nor the balance topic; and whenever it does store a payload, the
stored C-string is at most 15 bytes and the buffer is always
NUL-terminated (a NUL is written at index `min length 15`). -/
theorem mqttCallback_frame :
    (∀ (topic : Option String) (payload : Option (List Char)) (len : ℕ)
        (st : MsgBuffers), topic = none ∨ payload = none ∨ len = 0 →
        mqttCallback topic payload len st = st) ∧
    (∀ (t : String) (payload : Option (List Char)) (len : ℕ) (st : MsgBuffers),
        t ≠ TOPIC_PRICE_USD → t ≠ TOPIC_BALANCE_BTC →
        mqttCallback (some t) payload len st = st) ∧
    (∀ (p : List Char) (st : MsgBuffers), p ≠ [] → st.priceUsdBuf.length = 16 →
        (cString (mqttCallback (some TOPIC_PRICE_USD) (some p) p.length
            st).priceUsdBuf).length ≤ 15 ∧
        (mqttCallback (some TOPIC_PRICE_USD) (some p) p.length
            st).priceUsdBuf[min p.length 15]? = some nulChar) ∧
    (∀ (p : List Char) (st : MsgBuffers), p ≠ [] → st.balanceBtcBuf.length = 16 →
        (cString (mqttCallback (some TOPIC_BALANCE_BTC) (some p) p.length
            st).balanceBtcBuf).length ≤ 15 ∧
        (mqttCallback (some TOPIC_BALANCE_BTC) (some p) p.length
            st).balanceBtcBuf[min p.length 15]? = some nulChar) := by
  have hne : TOPIC_BALANCE_BTC ≠ TOPIC_PRICE_USD := by decide
  refine ⟨?_, ?_, ?_, ?_⟩
  · intro topic payload len st h
    rw [mqttCallback, if_pos h]
  · intro t payload len st h1 h2
    rw [mqttCallback]
    by_cases hg : (some t : Option String) = none ∨ payload = none ∨ len = 0
    · rw [if_pos hg]
    · rw [if_neg hg, if_neg (by simp only [Option.some.injEq]; exact h1),
        if_neg (by simp only [Option.some.injEq]; exact h2)]
  · intro p st hp hlen
    have hguard : ¬ ((some TOPIC_PRICE_USD : Option String) = none ∨
        (some p : Option (List Char)) = none ∨ p.length = 0) := by
      push_neg
      refine ⟨by simp, by simp, ?_⟩
      simpa using hp
    rw [mqttCallback, if_neg hguard, if_pos rfl]
    constructor
    · simpa using cString_safeCopy_length st.priceUsdBuf p hlen hp
    · simpa using safeCopy_nul_at st.priceUsdBuf p hlen hp
  · intro p st hp hlen
    have hguard : ¬ ((some TOPIC_BALANCE_BTC : Option String) = none ∨
        (some p : Option (List Char)) = none ∨ p.length = 0) := by
      push_neg
      refine ⟨by simp, by simp, ?_⟩
      simpa using hp
    rw [mqttCallback, if_neg hguard,
      if_neg (by simp only [Option.some.injEq]; exact hne), if_pos rfl]
    constructor
    · simpa using cString_safeCopy_length st.balanceBtcBuf p hlen hp
    · simpa using safeCopy_nul_at st.balanceBtcBuf p hlen hp

/-- Witness for `mqttCallback_frame`: an unrelated topic leaves the state
alone, and a 20-byte payload on the price topic is stored truncated with a
NUL at index 15. -/
theorem mqttCallback_frame_witness :
    ("other/topic" ≠ TOPIC_PRICE_USD ∧
      mqttCallback (some ("other/topic")) (some ['1']) 1
        ⟨false, false, List.replicate 16 nulChar, List.replicate 16 nulChar⟩ =
        ⟨false, false, List.replicate 16 nulChar, List.replicate 16 nulChar⟩) ∧
    (['0', '1', '2', '3', '4', '5', '6', '7', '8', '9',
      '0', '1', '2', '3', '4', '5', '6', '7', '8', '9'] ≠ ([] : List Char) ∧
      (cString (mqttCallback (some TOPIC_PRICE_USD)
          (some ['0', '1', '2', '3', '4', '5', '6', '7', '8', '9',
                 '0', '1', '2', '3', '4', '5', '6', '7', '8', '9'])
          (['0', '1', '2', '3', '4', '5', '6', '7', '8', '9',
            '0', '1', '2', '3', '4', '5', '6', '7', '8', '9'] : List Char).length
          ⟨false, false, List.replicate 16 nulChar,
            List.replicate 16 nulChar⟩).priceUsdBuf).length ≤ 15) :=
  ⟨⟨by decide, mqttCallback_frame.2.1 ("other/topic") (some ['1']) 1
      ⟨false, false, List.replicate 16 nulChar, List.replicate 16 nulChar⟩
      (by decide) (by decide)⟩,
   ⟨by decide, (mqttCallback_frame.2.2.1
      ['0', '1', '2', '3', '4', '5', '6', '7', '8', '9',
       '0', '1', '2', '3', '4', '5', '6', '7', '8', '9']
      ⟨false, false, List.replicate 16 nulChar, List.replicate 16 nulChar⟩
      (by decide) (by decide)).1⟩⟩

/-! ### Claims C7 and C8: retained-state update and fallback -/

/-- C7: each retained field is overwritten exactly when its received flag
was raised (first conjunct, both fields); when only the balance topic
delivers a (well-formed, ≤ 15 byte, NUL-free) payload, `lastBalanceBtc`
becomes that fresh payload while `lastPriceUsd` is byte-for-byte untouched;
when neither topic delivers, the whole retained state is unchanged. -/
theorem retained_written_iff_received :
    (∀ (mul : ℚ) (st : Retained) (prev : MsgBuffers) (f : Fetched),
      (wakeCycle mul st prev f).retainedAfter.lastPriceUsd =
        (if (serviceMessages f (resetBuffers prev)).gotPrice then
          (cString (serviceMessages f (resetBuffers prev)).priceUsdBuf).take 15
        else st.lastPriceUsd) ∧
      (wakeCycle mul st prev f).retainedAfter.lastBalanceBtc =
        (if (serviceMessages f (resetBuffers prev)).gotBalance then
          (cString (serviceMessages f (resetBuffers prev)).balanceBtcBuf).take 15
        else st.lastBalanceBtc)) ∧
    (∀ (mul : ℚ) (st : Retained) (prev : MsgBuffers) (p : List Char),
      p ≠ [] → p.length ≤ 15 → (∀ c ∈ p, c ≠ nulChar) →
      prev.balanceBtcBuf.length = 16 →
      (wakeCycle mul st prev ⟨none, some p⟩).retainedAfter.lastBalanceBtc = p ∧
      (wakeCycle mul st prev ⟨none, some p⟩).retainedAfter.lastPriceUsd =
        st.lastPriceUsd) ∧
    (∀ (mul : ℚ) (st : Retained) (prev : MsgBuffers),
      (wakeCycle mul st prev ⟨none, none⟩).retainedAfter = st) := by
  refine ⟨?_, ?_, ?_⟩
  · intro mul st prev f
    exact ⟨rfl, rfl⟩
  · intro mul st prev p hp hlen hnul hprev
    have hb : serviceMessages ⟨none, some p⟩ (resetBuffers prev) =
        { resetBuffers prev with
          balanceBtcBuf :=
            safeCopy (resetBuffers prev).balanceBtcBuf 16 (some p) p.length,
          gotBalance := true } := by
      rw [serviceMessages]
      simp only
      rw [mqttCallback, if_neg, if_neg, if_pos rfl]
      · simp only [Option.some.injEq]
        decide
      · push_neg

        refine ⟨by simp, by simp, ?_⟩
        simpa using hp
    have hblen : (resetBuffers prev).balanceBtcBuf.length = 16 := by
      rw [resetBuffers]
      simpa using hprev
    have hcs : cString (safeCopy (resetBuffers prev).balanceBtcBuf 16
        (some p) p.length) = p := by
      rw [cString_safeCopy _ p hblen hp]
      rw [List.take_of_length_le hlen, cString, List.takeWhile_eq_self_iff.mpr]
      intro c hc
      simpa using hnul c hc
    constructor
    · show (persistRetained (serviceMessages ⟨none, some p⟩ (resetBuffers prev))
        st).lastBalanceBtc = p
      rw [hb, persistRetained]
      simp only [if_pos rfl]
      rw [hcs, List.take_of_length_le hlen]
      simp
    · show (persistRetained (serviceMessages ⟨none, some p⟩ (resetBuffers prev))
        st).lastPriceUsd = st.lastPriceUsd
      rw [hb, persistRetained]
      rfl
  · intro mul st prev
    rfl

/-- Witness for `retained_written_iff_received`: a fresh 2-byte balance
payload `"99"` on an otherwise silent cycle updates only the balance
field. -/
theorem retained_written_iff_received_witness :
    ((['9', '9'] : List Char) ≠ [] ∧ (['9', '9'] : List Char).length ≤ 15 ∧
      (List.replicate 16 nulChar).length = 16) ∧
    (wakeCycle 1 initialRetained
        ⟨false, false, List.replicate 16 nulChar, List.replicate 16 nulChar⟩
        ⟨none, some ['9', '9']⟩).retainedAfter.lastBalanceBtc = ['9', '9'] ∧
    (wakeCycle 1 initialRetained
        ⟨false, false, List.replicate 16 nulChar, List.replicate 16 nulChar⟩
        ⟨none, some ['9', '9']⟩).retainedAfter.lastPriceUsd =
      initialRetained.lastPriceUsd :=
  ⟨⟨by decide, by decide, by decide⟩,
   (retained_written_iff_received.2.1 1 initialRetained
      ⟨false, false, List.replicate 16 nulChar, List.replicate 16 nulChar⟩
      ['9', '9'] (by decide) (by decide) (by decide) (by decide)).1,
   (retained_written_iff_received.2.1 1 initialRetained
      ⟨false, false, List.replicate 16 nulChar, List.replicate 16 nulChar⟩
      ['9', '9'] (by decide) (by decide) (by decide) (by decide)).2⟩

/-- C8: any value not received in a wake cycle falls back to the retained
string (first two conjuncts); and a cycle in which both topics are silent
while the retained state still holds the first-power-on sentinels `"--"`
computes price 0, balance 0, duration (0, 0, 0) and leaves the retained
state at its sentinels. -/
theorem silent_cycle_falls_back :
    (∀ (mul : ℚ) (st : Retained) (prev : MsgBuffers) (f : Fetched),
      (serviceMessages f (resetBuffers prev)).gotPrice = false →
      (wakeCycle mul st prev f).priceUsd = parseFloatSafe (some st.lastPriceUsd)) ∧
    (∀ (mul : ℚ) (st : Retained) (prev : MsgBuffers) (f : Fetched),
      (serviceMessages f (resetBuffers prev)).gotBalance = false →
      (wakeCycle mul st prev f).balanceBtc =
        parseFloatSafe (some st.lastBalanceBtc)) ∧
    (∀ (mul : ℚ) (prev : MsgBuffers),
      wakeCycle mul initialRetained prev ⟨none, none⟩ =
        ⟨0, 0, (0, 0, 0), initialRetained⟩) := by
  have hdash : parseFloatSafe (some ['-', '-']) = 0 := by
    simp +decide [parseFloatSafe, strtofModel, readSign, readExp, natOfDigits,
      fracOfDigits, digitVal, isSpaceChar, clampNonNegative]
  refine ⟨?_, ?_, ?_⟩
  · intro mul st prev f h
    rw [wakeCycle]
    simp only [h, Bool.false_eq_true, if_false]
  · intro mul st prev f h
    rw [wakeCycle]
    simp only [h, Bool.false_eq_true, if_false]
  · intro mul prev
    rw [wakeCycle]
    have hsm : serviceMessages ⟨none, none⟩ (resetBuffers prev) =
        resetBuffers prev := rfl
    rw [hsm]
    have hgp : (resetBuffers prev).gotPrice = false := rfl
    have hgb : (resetBuffers prev).gotBalance = false := rfl
    simp only [hgp, hgb, Bool.false_eq_true, if_false]
    have hinit : initialRetained.lastPriceUsd = ['-', '-'] := rfl
    have hinit2 : initialRetained.lastBalanceBtc = ['-', '-'] := rfl
    rw [hinit, hinit2, hdash]
    rw [mul_zero]
    rw [computeLongevityWithInflation, if_pos (Or.inl le_rfl)]
    rfl

/-- Witness for `silent_cycle_falls_back`: a silent cycle on stale buffers
full of `'x'` bytes still reports the retained sentinel parse. -/
theorem silent_cycle_falls_back_witness :
    (serviceMessages ⟨none, none⟩ (resetBuffers
        ⟨true, true, List.replicate 16 'x', List.replicate 16 'x'⟩)).gotPrice =
      false ∧
    (wakeCycle 1 initialRetained
        ⟨true, true, List.replicate 16 'x', List.replicate 16 'x'⟩
        ⟨none, none⟩).priceUsd =
      parseFloatSafe (some initialRetained.lastPriceUsd) :=
  ⟨rfl, silent_cycle_falls_back.1 1 initialRetained
    ⟨true, true, List.replicate 16 'x', List.replicate 16 'x'⟩
    ⟨none, none⟩ rfl⟩

/-! ### Claim C9: the buffer/flag reset and its place in the cycle -/

/-- C9 (amended): in every branch outcome of `setup()`, the buffer/flag
reset step is present and precedes every MQTT operation through which a
message could reach the callback (broker connect, subscribe, service
loop); and the reset really restores the not-yet-received state — flags
false and both buffer C-strings empty — whatever stale contents the
globals held.  (As stated the claim is false: the Wi-Fi connection and NTP
sync are network operations and run BEFORE the reset, see
`network_op_precedes_reset`.) -/
theorem reset_precedes_mqtt_ops :
    (∀ wifiOK mqttOK : Bool,
      SetupStep.resetBuffersFlags ∈ setupTrace wifiOK mqttOK ∧
      ((setupTrace wifiOK mqttOK).takeWhile
        (fun s => s != SetupStep.resetBuffersFlags)).all
        (fun s => !isMqttDeliveryOp s) = true) ∧
    (∀ prev : MsgBuffers,
      (resetBuffers prev).gotPrice = false ∧
      (resetBuffers prev).gotBalance = false ∧
      cString (resetBuffers prev).priceUsdBuf = [] ∧
      cString (resetBuffers prev).balanceBtcBuf = []) := by
  have hc : ∀ l : List Char, cString (l.set 0 nulChar) = [] := by
    intro l
    cases l with
    | nil => rfl
    | cons c t => simp [cString, List.set, List.takeWhile_cons]
  constructor
  · intro wifiOK mqttOK
    cases wifiOK <;> cases mqttOK <;> exact ⟨by decide, by decide⟩
  · intro prev
    exact ⟨rfl, rfl, hc prev.priceUsdBuf, hc prev.balanceBtcBuf⟩

/-- Counterexample to C9 as stated: in the fully-successful branch the
Wi-Fi connection — a network operation — appears in the part of the trace
strictly before the buffer/flag reset. -/
theorem network_op_precedes_reset :
    SetupStep.wifiConnect ∈ ((setupTrace true true).takeWhile
      (fun s => s != SetupStep.resetBuffersFlags)) ∧
    isNetworkOp SetupStep.wifiConnect = true := by
  decide

end FreedomClock
